import Mathlib

/-!
Verification of the `wm_mecanum_cmd` mecanum-wheel command node.

The Python source (`src/wm_mecanum_cmd_node.py`) converts a body velocity
command (vx, vy, wz) into four wheel angular-velocity setpoints:
it clamps the linear speed via a polar decomposition (lines 51-62),
clamps the yaw rate (lines 64-68), and applies the inverse-kinematics
matrix with per-wheel scaling (lines 86-106).  A second file
(`src/wm_mecanum_cmd_test.py`) carries a feedback/test variant whose
`InverseKinematics` differs only in the scaling (line 97).

Real arithmetic models the Python floats; `Complex.arg (x + y*I)` models
`math.atan2(y, x)` (both return the angle in (-π, π] and send (0,0) to 0).
-/

namespace WmMecanum

open Real

/-- The geometry and limit fields stored on `MecanumCmd` by `__init__`
(node file, lines 24-34). -/
structure Config where
  alpha : ℝ
  beta : ℝ
  radius : ℝ
  maxLinearVelocity : ℝ
  maxAngularVelocity : ℝ
  gb_ratio : ℝ

/-- The data-model invariant of the spec: every geometry and limit value is
strictly positive. -/
def Config.Valid (c : Config) : Prop :=
  0 < c.alpha ∧ 0 < c.beta ∧ 0 < c.radius ∧
    0 < c.maxLinearVelocity ∧ 0 < c.maxAngularVelocity ∧ 0 < c.gb_ratio

/-- The raw parameter values handed to `__init__` by `rospy.get_param`
(node file, lines 24-34). -/
structure Params where
  alpha : ℝ
  beta : ℝ
  wheel_radius : ℝ
  max_linear_vel : ℝ
  angular_vel_div : ℝ
  gearbox_ratio : ℝ

/-- Embeds `MecanumCmd.__init__` (node file, lines 20-41) as a fallible
construction step.  The source stores the parameters directly; its only
failure path is the ZeroDivisionError raised by the Python division
`maxAngularVelocity = pi / divisor` (line 32) when `angular_vel_div = 0`,
modelled as `none`.  No parameter value is validated: there is no check of
the sign of the radius, alpha, beta, or gearbox ratio. -/
noncomputable def mecanumInit (p : Params) : Option Config :=
  if p.angular_vel_div = 0 then none
  else
    some { alpha := p.alpha
           beta := p.beta
           radius := p.wheel_radius
           maxLinearVelocity := p.max_linear_vel
           maxAngularVelocity := Real.pi / p.angular_vel_div
           gb_ratio := p.gearbox_ratio }

/-- The configuration obtained from the default parameter values
(alpha 0.31, beta 0.30, wheel radius 0.075, max linear 1,
angular divisor 6, gearbox ratio 15). -/
noncomputable def mecanumDefault : Config :=
  { alpha := 0.31
    beta := 0.30
    radius := 0.075
    maxLinearVelocity := 1
    maxAngularVelocity := Real.pi / 6
    gb_ratio := 15 }

/-- A simple valid configuration with every field equal to 1, used to
exercise theorems on concrete inputs. -/
noncomputable def unitConfig : Config :=
  { alpha := 1, beta := 1, radius := 1, maxLinearVelocity := 1,
    maxAngularVelocity := 1, gb_ratio := 1 }

/-- `math.atan2 y x`, modelled as the argument of the complex number
`x + y*I`; both lie in (-π, π] and map (0, 0) to 0. -/
noncomputable def atan2 (y x : ℝ) : ℝ :=
  Complex.arg (↑x + ↑y * Complex.I)

/-- `vLinear = sqrt(twist.linear.x**2 + twist.linear.y**2)`
(node file, line 51). -/
noncomputable def vLinearRaw (vx vy : ℝ) : ℝ :=
  Real.sqrt (vx ^ 2 + vy ^ 2)

/-- The linear-magnitude clamp of lines 53-54: `vLinear` is replaced by
`maxLinearVelocity` exactly when it exceeds it. -/
noncomputable def vLinearClamped (c : Config) (vx vy : ℝ) : ℝ :=
  if vLinearRaw vx vy > c.maxLinearVelocity then c.maxLinearVelocity
  else vLinearRaw vx vy

/-- `xVel = vLinear * cos(Heading)` with `Heading = atan2(y, x)`
(node file, lines 57-60). -/
noncomputable def xVelOf (c : Config) (vx vy : ℝ) : ℝ :=
  vLinearClamped c vx vy * Real.cos (atan2 vy vx)

/-- `yVel = vLinear * sin(Heading)` (node file, lines 57-62). -/
noncomputable def yVelOf (c : Config) (vx vy : ℝ) : ℝ :=
  vLinearClamped c vx vy * Real.sin (atan2 vy vx)

/-- The yaw-rate clamp of lines 67-68:
`if yawVel**2 > maxAngularVelocity**2: yawVel = maxAngularVelocity * yawVel / abs(yawVel)`. -/
noncomputable def yawClamped (c : Config) (wz : ℝ) : ℝ :=
  if wz ^ 2 > c.maxAngularVelocity ^ 2 then
    c.maxAngularVelocity * wz / |wz|
  else wz

/-- The inverse-kinematics matrix `J` (node file, lines 95-98; the test
file builds the identical matrix at lines 88-91). -/
noncomputable def J (c : Config) : List (List ℝ) :=
  [[1, -1, -1 * (c.alpha + c.beta)],
   [1, 1, (c.alpha + c.beta)],
   [1, 1, -1 * (c.alpha + c.beta)],
   [1, -1, (c.alpha + c.beta)]]

/-- The loop body of `InverseKinematics` (node file, line 104):
`w[k] = -gb_ratio / 2.0 * ((-1)**k) * (1/radius) * (J[k][0]*xVel + J[k][1]*yVel + J[k][2]*yawVel)`. -/
noncomputable def wheelFormula (c : Config) (xVel yVel yawVel : ℝ) (k : ℕ) : ℝ :=
  -c.gb_ratio / 2 * ((-1 : ℝ)) ^ k * (1 / c.radius) *
    (((J c).getD k []).getD 0 0 * xVel +
     ((J c).getD k []).getD 1 0 * yVel +
     ((J c).getD k []).getD 2 0 * yawVel)

/-- `MecanumCmd.InverseKinematics` of the node file (lines 86-106):
the list `w` filled by the loop over `range(4)`. -/
noncomputable def inverseKinematics (c : Config) (xVel yVel yawVel : ℝ) : List ℝ :=
  (List.range 4).map (wheelFormula c xVel yVel yawVel)

/-- The loop body of the test-file variant (test file, line 97):
`w[k] = ((-1)**k) * (1/radius) * (J[k][0]*xVel + J[k][1]*yVel + J[k][2]*yawVel)`. -/
noncomputable def wheelFormulaTest (c : Config) (xVel yVel yawVel : ℝ) (k : ℕ) : ℝ :=
  ((-1 : ℝ)) ^ k * (1 / c.radius) *
    (((J c).getD k []).getD 0 0 * xVel +
     ((J c).getD k []).getD 1 0 * yVel +
     ((J c).getD k []).getD 2 0 * yawVel)

/-- `MecanumCmd.InverseKinematics` of the test file (lines 79-99). -/
noncomputable def inverseKinematicsTest (c : Config) (xVel yVel yawVel : ℝ) : List ℝ :=
  (List.range 4).map (wheelFormulaTest c xVel yVel yawVel)

/-- The numeric core of `MecanumCmd.callback` (node file, lines 51-70):
clamp the linear magnitude, recompose along the heading, clamp the yaw
rate, and apply the inverse kinematics. -/
noncomputable def convert (c : Config) (vx vy wz : ℝ) : List ℝ :=
  inverseKinematics c (xVelOf c vx vy) (yVelOf c vx vy) (yawClamped c wz)

/-! ### Evaluation of the transform -/

/-- Closed form of the four wheel speeds produced by `InverseKinematics`. -/
theorem inverseKinematics_eq (c : Config) (x y z : ℝ) :
    inverseKinematics c x y z =
      [-(c.gb_ratio / 2 * (1 / c.radius) * (x - y - (c.alpha + c.beta) * z)),
       c.gb_ratio / 2 * (1 / c.radius) * (x + y + (c.alpha + c.beta) * z),
       -(c.gb_ratio / 2 * (1 / c.radius) * (x + y - (c.alpha + c.beta) * z)),
       c.gb_ratio / 2 * (1 / c.radius) * (x - y + (c.alpha + c.beta) * z)] := by
  show List.map _ [0, 1, 2, 3] = _
  simp only [List.map_cons, List.map_nil, wheelFormula, J, List.getD_cons_zero,
    List.getD_cons_succ, List.cons.injEq, and_true]
  refine ⟨by ring, by ring, by ring, by ring⟩

/-- Closed form of the four wheel speeds produced by the test-file
`InverseKinematics`. -/
theorem inverseKinematicsTest_eq (c : Config) (x y z : ℝ) :
    inverseKinematicsTest c x y z =
      [1 / c.radius * (x - y - (c.alpha + c.beta) * z),
       -(1 / c.radius * (x + y + (c.alpha + c.beta) * z)),
       1 / c.radius * (x + y - (c.alpha + c.beta) * z),
       -(1 / c.radius * (x - y + (c.alpha + c.beta) * z))] := by
  show List.map _ [0, 1, 2, 3] = _
  simp only [List.map_cons, List.map_nil, wheelFormulaTest, J, List.getD_cons_zero,
    List.getD_cons_succ, List.cons.injEq, and_true]
  refine ⟨by ring, by ring, by ring, by ring⟩

/-- A quantity whose square strictly dominates another square is nonzero. -/
theorem ne_zero_of_sq_gt {a b : ℝ} (hb : a ^ 2 > b ^ 2) : a ≠ 0 := by
  intro h0
  rw [h0] at hb
  nlinarith [sq_nonneg b]

/-- The linear clamp of lines 53-54 computes the minimum of the raw
magnitude and the limit. -/
theorem vLinearClamped_eq_min (c : Config) (vx vy : ℝ) :
    vLinearClamped c vx vy = min (vLinearRaw vx vy) c.maxLinearVelocity := by
  simp only [vLinearClamped]
  rcases le_or_lt (vLinearRaw vx vy) c.maxLinearVelocity with h | h
  · rw [if_neg (not_lt.mpr h), min_eq_left h]
  · rw [if_pos h, min_eq_right h.le]

/-- The clamped linear magnitude never exceeds the limit. -/
theorem vLinearClamped_le (c : Config) (vx vy : ℝ) :
    vLinearClamped c vx vy ≤ c.maxLinearVelocity := by
  rw [vLinearClamped_eq_min]; exact min_le_right _ _

/-- The clamped linear magnitude is nonnegative when the limit is. -/
theorem vLinearClamped_nonneg (c : Config) (vx vy : ℝ)
    (h : 0 ≤ c.maxLinearVelocity) : 0 ≤ vLinearClamped c vx vy := by
  rw [vLinearClamped_eq_min]
  exact le_min (Real.sqrt_nonneg _) h

/-- The clamped yaw rate is bounded by the (positive) angular limit. -/
theorem abs_yawClamped_le (c : Config) (wz : ℝ)
    (h : 0 < c.maxAngularVelocity) :
    |yawClamped c wz| ≤ c.maxAngularVelocity := by
  simp only [yawClamped]
  split_ifs with hb
  · have hwz : wz ≠ 0 := ne_zero_of_sq_gt hb
    have h1 : |wz| ≠ 0 := abs_ne_zero.mpr hwz
    rw [abs_div, abs_abs, abs_mul, abs_of_pos h, mul_div_assoc, div_self h1,
      mul_one]
  · push_neg at hb
    have h2 : |wz| ^ 2 ≤ c.maxAngularVelocity ^ 2 := by rw [sq_abs]; exact hb
    nlinarith [abs_nonneg wz]

/-- The heading computed at lines 57-62 is preserved by the magnitude
clamp: recomposing any positive magnitude along `atan2 vy vx` yields a
vector with the same `atan2`. -/
theorem heading_preserved (c : Config) (vx vy : ℝ)
    (hpos : 0 < vLinearClamped c vx vy) :
    atan2 (yVelOf c vx vy) (xVelOf c vx vy) = atan2 vy vx := by
  have hθ : atan2 vy vx ∈ Set.Ioc (-Real.pi) Real.pi := Complex.arg_mem_Ioc _
  have key : ((xVelOf c vx vy : ℂ)) + (yVelOf c vx vy : ℂ) * Complex.I =
      (vLinearClamped c vx vy : ℂ) *
        (Complex.cos (atan2 vy vx) + Complex.sin (atan2 vy vx) * Complex.I) := by
    simp only [xVelOf, yVelOf]
    push_cast
    ring
  show Complex.arg ((xVelOf c vx vy : ℂ) + (yVelOf c vx vy : ℂ) * Complex.I) =
    atan2 vy vx
  rw [key]
  exact Complex.arg_mul_cos_add_sin_mul_I hpos hθ

/-- Recomposition along the heading is the identity on a nonzero vector:
`sqrt(vx²+vy²) * cos(atan2 vy vx) = vx` and likewise with `sin` and `vy`. -/
theorem recompose_identity (vx vy : ℝ)
    (h : Real.sqrt (vx ^ 2 + vy ^ 2) ≠ 0) :
    Real.sqrt (vx ^ 2 + vy ^ 2) * Real.cos (atan2 vy vx) = vx ∧
      Real.sqrt (vx ^ 2 + vy ^ 2) * Real.sin (atan2 vy vx) = vy := by
  have hz : ((vx : ℂ) + (vy : ℂ) * Complex.I) ≠ 0 := by
    intro h0
    apply h
    have hvx : vx = 0 := by simpa using congrArg Complex.re h0
    have hvy : vy = 0 := by simpa using congrArg Complex.im h0
    rw [hvx, hvy]
    simp
  have habs : Complex.abs ((vx : ℂ) + (vy : ℂ) * Complex.I) =
      Real.sqrt (vx ^ 2 + vy ^ 2) := Complex.abs_add_mul_I vx vy
  have hre : ((vx : ℂ) + (vy : ℂ) * Complex.I).re = vx := by simp
  have him : ((vx : ℂ) + (vy : ℂ) * Complex.I).im = vy := by simp
  constructor
  · rw [atan2, Complex.cos_arg hz, habs, hre, mul_comm]
    exact div_mul_cancel₀ vx h
  · rw [atan2, Complex.sin_arg, habs, him, mul_comm]
    exact div_mul_cancel₀ vy h

/-- Each summand |cos| + |sin| is bounded by √2. -/
theorem abs_cos_add_abs_sin_le (t : ℝ) :
    |Real.cos t| + |Real.sin t| ≤ Real.sqrt 2 := by
  have hc := Real.sin_sq_add_cos_sq t
  have h1 : (|Real.cos t| + |Real.sin t|) ^ 2 ≤ 2 := by
    nlinarith [sq_nonneg (|Real.cos t| - |Real.sin t|), sq_abs (Real.cos t),
      sq_abs (Real.sin t), abs_nonneg (Real.cos t), abs_nonneg (Real.sin t),
      abs_mul_abs_self (Real.cos t), abs_mul_abs_self (Real.sin t)]
  exact Real.le_sqrt_of_sq_le h1

/-- The recomposed linear components are jointly bounded by
√2 · maxLinearSpeed. -/
theorem abs_xVel_add_abs_yVel_le (c : Config) (vx vy : ℝ)
    (h : 0 < c.maxLinearVelocity) :
    |xVelOf c vx vy| + |yVelOf c vx vy| ≤
      Real.sqrt 2 * c.maxLinearVelocity := by
  have h0 : 0 ≤ vLinearClamped c vx vy := vLinearClamped_nonneg c vx vy h.le
  have hle : vLinearClamped c vx vy ≤ c.maxLinearVelocity :=
    vLinearClamped_le c vx vy
  have hcs := abs_cos_add_abs_sin_le (atan2 vy vx)
  simp only [xVelOf, yVelOf, abs_mul, abs_of_nonneg h0]
  calc vLinearClamped c vx vy * |Real.cos (atan2 vy vx)| +
        vLinearClamped c vx vy * |Real.sin (atan2 vy vx)|
      = vLinearClamped c vx vy *
          (|Real.cos (atan2 vy vx)| + |Real.sin (atan2 vy vx)|) := by ring
    _ ≤ c.maxLinearVelocity * Real.sqrt 2 :=
        mul_le_mul hle hcs (by positivity) h.le
    _ = Real.sqrt 2 * c.maxLinearVelocity := by ring

/-- Triangle-inequality bound for one row of the kinematics mix, with the
lateral and yaw entries restricted to unit signs. -/
theorem abs_mix_le (X Y Z a e f : ℝ) (ha : 0 ≤ a)
    (he : e = 1 ∨ e = -1) (hf : f = 1 ∨ f = -1) :
    |X + e * Y + f * (a * Z)| ≤ |X| + |Y| + a * |Z| := by
  have h1 : |X + e * Y + f * (a * Z)| ≤ |X + e * Y| + |f * (a * Z)| :=
    abs_add _ _
  have h2 : |X + e * Y| ≤ |X| + |e * Y| := abs_add _ _
  have he' : |e * Y| = |Y| := by rcases he with h | h <;> rw [h] <;> simp
  have hf' : |f * (a * Z)| = a * |Z| := by
    rcases hf with h | h <;> rw [h] <;> simp [abs_mul, abs_of_nonneg ha]
  linarith

/-- Bound for one wheel entry of the command-path transform. -/
theorem entry_bound (c : Config) (X Y Z e f : ℝ)
    (hr : 0 < c.radius) (hgb : 0 < c.gb_ratio) (hab : 0 ≤ c.alpha + c.beta)
    (hXY : |X| + |Y| ≤ Real.sqrt 2 * c.maxLinearVelocity)
    (hZ : |Z| ≤ c.maxAngularVelocity)
    (he : e = 1 ∨ e = -1) (hf : f = 1 ∨ f = -1) :
    |c.gb_ratio / 2 * (1 / c.radius) *
        (X + e * Y + f * ((c.alpha + c.beta) * Z))| ≤
      c.gb_ratio / (2 * c.radius) *
        (Real.sqrt 2 * c.maxLinearVelocity +
          (c.alpha + c.beta) * c.maxAngularVelocity) := by
  have hcoef : 0 ≤ c.gb_ratio / 2 * (1 / c.radius) :=
    mul_nonneg (div_nonneg hgb.le (by norm_num)) (one_div_nonneg.mpr hr.le)
  rw [abs_mul, abs_of_nonneg hcoef]
  have hmix := abs_mix_le X Y Z (c.alpha + c.beta) e f hab he hf
  have hZ' := mul_le_mul_of_nonneg_left hZ hab
  have hin : |X| + |Y| + (c.alpha + c.beta) * |Z| ≤
      Real.sqrt 2 * c.maxLinearVelocity +
        (c.alpha + c.beta) * c.maxAngularVelocity := by linarith
  calc c.gb_ratio / 2 * (1 / c.radius) *
        |X + e * Y + f * ((c.alpha + c.beta) * Z)|
      ≤ c.gb_ratio / 2 * (1 / c.radius) *
          (Real.sqrt 2 * c.maxLinearVelocity +
            (c.alpha + c.beta) * c.maxAngularVelocity) :=
        mul_le_mul_of_nonneg_left (le_trans hmix hin) hcoef
    _ = _ := by rw [div_mul_div_comm, mul_one]

/-! ### The claims -/

/-- C1: for every input (after clamping) and every geometry, the converter's
wheel speed for index k in {0:FL, 1:FR, 2:RL, 3:RR} equals
-(-1)^k * (gearboxRatio / 2) * (1 / wheelRadius) * (row_k · (xVel, yVel, yawVel)),
with rows FL (1, -1, -(α+β)), FR (1, 1, α+β), RL (1, 1, -(α+β)),
RR (1, -1, α+β). -/
theorem converter_wheel_speed_formula (c : Config) (vx vy wz : ℝ) :
    ((convert c vx vy wz).getD 0 0 =
        -((-1 : ℝ) ^ (0 : ℕ)) * (c.gb_ratio / 2) * (1 / c.radius) *
          (1 * xVelOf c vx vy + (-1) * yVelOf c vx vy +
            (-(c.alpha + c.beta)) * yawClamped c wz)) ∧
    ((convert c vx vy wz).getD 1 0 =
        -((-1 : ℝ) ^ (1 : ℕ)) * (c.gb_ratio / 2) * (1 / c.radius) *
          (1 * xVelOf c vx vy + 1 * yVelOf c vx vy +
            (c.alpha + c.beta) * yawClamped c wz)) ∧
    ((convert c vx vy wz).getD 2 0 =
        -((-1 : ℝ) ^ (2 : ℕ)) * (c.gb_ratio / 2) * (1 / c.radius) *
          (1 * xVelOf c vx vy + 1 * yVelOf c vx vy +
            (-(c.alpha + c.beta)) * yawClamped c wz)) ∧
    ((convert c vx vy wz).getD 3 0 =
        -((-1 : ℝ) ^ (3 : ℕ)) * (c.gb_ratio / 2) * (1 / c.radius) *
          (1 * xVelOf c vx vy + (-1) * yVelOf c vx vy +
            (c.alpha + c.beta) * yawClamped c wz)) := by
  simp only [convert, inverseKinematics_eq, List.getD_cons_zero,
    List.getD_cons_succ]
  refine ⟨by ring, by ring, by ring, by ring⟩

/-- C2 counterexample: the parameter set with wheel radius -1 (a
non-positive radius) is accepted by startup — `mecanumInit` constructs the
configuration, no rejection happens. -/
theorem startup_accepts_negative_radius :
    ((-1 : ℝ) < 0) ∧
      (mecanumInit ⟨0.31, 0.30, -1, 1, 6, 15⟩).isSome = true := by
  refine ⟨by norm_num, ?_⟩
  rw [mecanumInit, if_neg (show ((⟨0.31, 0.30, -1, 1, 6, 15⟩ :
    Params).angular_vel_div) ≠ 0 from by norm_num)]
  rfl

/-- C2 amended: startup does not validate wheelRadius, alpha, beta, or
gearboxRatio — whenever `__init__` completes at all (its only failure is
the ZeroDivisionError at `pi / divisor` for `angular_vel_div = 0`), the
configuration is accepted, including zero or negative wheelRadius, alpha,
beta, or gearboxRatio, before commands are processed. -/
theorem startup_never_rejects (p : Params) (h : p.angular_vel_div ≠ 0) :
    (mecanumInit p).isSome = true := by
  rw [mecanumInit, if_neg h]
  rfl

/-- Witness for the amended C2 at a parameter set with negative wheel
radius and the default angular divisor 6. -/
theorem startup_never_rejects_witness :
    (mecanumInit ⟨0.31, 0.30, -1, 1, 6, 15⟩).isSome = true :=
  startup_never_rejects ⟨0.31, 0.30, -1, 1, 6, 15⟩ (by norm_num)

/-- C4: the clamped yaw rate is bounded by maxAngularSpeed; above the limit
it equals maxAngularSpeed * sign(wz), otherwise it is unchanged. -/
theorem yaw_clamp_correct (c : Config) (wz : ℝ)
    (h : 0 < c.maxAngularVelocity) :
    |yawClamped c wz| ≤ c.maxAngularVelocity ∧
      (wz ^ 2 > c.maxAngularVelocity ^ 2 →
        yawClamped c wz = c.maxAngularVelocity * Real.sign wz) ∧
      (¬ wz ^ 2 > c.maxAngularVelocity ^ 2 → yawClamped c wz = wz) := by
  refine ⟨abs_yawClamped_le c wz h, ?_, fun hn => by
    simp only [yawClamped, if_neg hn]⟩
  intro hb
  have hwz : wz ≠ 0 := ne_zero_of_sq_gt hb
  simp only [yawClamped, if_pos hb]
  rcases lt_or_gt_of_ne hwz with hneg | hpos
  · rw [abs_of_neg hneg, Real.sign_of_neg hneg, div_neg, mul_div_assoc,
      div_self hwz, mul_one]
    ring
  · rw [abs_of_pos hpos, Real.sign_of_pos hpos]
    field_simp

/-- Witness for C4 at the unit configuration with input yaw rate 2. -/
theorem yaw_clamp_correct_witness :
    |yawClamped unitConfig 2| ≤ unitConfig.maxAngularVelocity ∧
      ((2 : ℝ) ^ 2 > unitConfig.maxAngularVelocity ^ 2 →
        yawClamped unitConfig 2 = unitConfig.maxAngularVelocity * Real.sign 2) ∧
      (¬ (2 : ℝ) ^ 2 > unitConfig.maxAngularVelocity ^ 2 →
        yawClamped unitConfig 2 = 2) :=
  yaw_clamp_correct unitConfig 2 (by norm_num [unitConfig])

/-- C5 counterexample: at pure yaw (vx = vy = 0, wz = 1) with the default
geometry, the FL and FR wheel speeds are both +61 — the left and right
sides do NOT have opposite sign. -/
theorem pure_yaw_counterexample :
    (inverseKinematics mecanumDefault 0 0 1).getD 0 0 = 61 ∧
      (inverseKinematics mecanumDefault 0 0 1).getD 1 0 = 61 ∧
      ¬ (inverseKinematics mecanumDefault 0 0 1).getD 0 0 =
          -((inverseKinematics mecanumDefault 0 0 1).getD 1 0) := by
  rw [inverseKinematics_eq]
  norm_num [mecanumDefault]

/-- C5 amended: at pure yaw with the default geometry ALL four wheel speeds
are equal (+61): front and rear on the same side match, and the left and
right sides have equal magnitude but the SAME sign, because the (-1)^k
scaling factor cancels the sign alternation of the matrix column. -/
theorem pure_yaw_all_equal :
    inverseKinematics mecanumDefault 0 0 1 = [61, 61, 61, 61] := by
  rw [inverseKinematics_eq]
  norm_num [mecanumDefault]

/-- C6: for every input and shared geometry the command-path wheel speed is
-(gearboxRatio/2) times the feedback/test-path wheel speed. -/
theorem command_vs_test_scaling (c : Config) (x y z : ℝ) (k : ℕ) :
    (inverseKinematics c x y z).getD k 0 =
      -(c.gb_ratio / 2) * (inverseKinematicsTest c x y z).getD k 0 := by
  rw [inverseKinematics_eq, inverseKinematicsTest_eq]
  rcases k with _ | _ | _ | _ | n
  · simp only [List.getD_cons_zero]; ring
  · simp only [List.getD_cons_succ, List.getD_cons_zero]; ring
  · simp only [List.getD_cons_succ, List.getD_cons_zero]; ring
  · simp only [List.getD_cons_succ, List.getD_cons_zero]; ring
  · simp only [List.getD_cons_succ, List.getD_nil]
    ring

/-- C8: the division `yawVel / abs(yawVel)` is reached only under the guard
`yawVel² > maxAngularSpeed²`, and with a positive limit the divisor is then
nonzero, so the clamp never divides by zero. -/
theorem yaw_sign_division_safe (c : Config) (wz : ℝ)
    (_hmax : 0 < c.maxAngularVelocity)
    (hb : wz ^ 2 > c.maxAngularVelocity ^ 2) :
    |wz| ≠ 0 ∧ yawClamped c wz = c.maxAngularVelocity * wz / |wz| :=
  ⟨abs_ne_zero.mpr (ne_zero_of_sq_gt hb), by simp only [yawClamped, if_pos hb]⟩

/-- Witness for C8 at the unit configuration with input yaw rate 2. -/
theorem yaw_sign_division_safe_witness :
    |(2 : ℝ)| ≠ 0 ∧
      yawClamped unitConfig 2 = unitConfig.maxAngularVelocity * 2 / |(2 : ℝ)| :=
  yaw_sign_division_safe unitConfig 2 (by norm_num [unitConfig])
    (by norm_num [unitConfig])

/-- C9: the zero command yields exactly zero on all four wheels for every
valid geometry. -/
theorem zero_input_zero_output (c : Config) (hv : c.Valid) :
    convert c 0 0 0 = [0, 0, 0, 0] := by
  obtain ⟨-, -, -, hlin, hang, -⟩ := hv
  have hraw : vLinearRaw 0 0 = 0 := by simp [vLinearRaw]
  have hclamp : vLinearClamped c 0 0 = 0 := by
    simp only [vLinearClamped, hraw]
    rw [if_neg (not_lt.mpr hlin.le)]
  have hx : xVelOf c 0 0 = 0 := by
    simp only [xVelOf, hclamp, zero_mul]
  have hy : yVelOf c 0 0 = 0 := by
    simp only [yVelOf, hclamp, zero_mul]
  have hcond : ¬ ((0 : ℝ) ^ 2 > c.maxAngularVelocity ^ 2) := by
    nlinarith [sq_nonneg c.maxAngularVelocity]
  have hz : yawClamped c 0 = 0 := by
    simp only [yawClamped, if_neg hcond]
  simp only [convert, hx, hy, hz, inverseKinematics_eq]
  norm_num

/-- C3: the clamped linear magnitude is min(sqrt(vx²+vy²), maxLinearSpeed),
never exceeds maxLinearSpeed, and whenever it is positive the recomposed
velocity has the same heading (atan2) as the input. -/
theorem linear_clamp_correct (c : Config) (vx vy : ℝ) :
    vLinearClamped c vx vy =
        min (Real.sqrt (vx ^ 2 + vy ^ 2)) c.maxLinearVelocity ∧
      vLinearClamped c vx vy ≤ c.maxLinearVelocity ∧
      (0 < vLinearClamped c vx vy →
        atan2 (yVelOf c vx vy) (xVelOf c vx vy) = atan2 vy vx) :=
  ⟨vLinearClamped_eq_min c vx vy, vLinearClamped_le c vx vy,
    heading_preserved c vx vy⟩

/-- Witness for C3 at the unit configuration with input (1, 0). -/
theorem linear_clamp_correct_witness :
    atan2 (yVelOf unitConfig 1 0) (xVelOf unitConfig 1 0) = atan2 0 1 :=
  (linear_clamp_correct unitConfig 1 0).2.2 (by
    rw [vLinearClamped_eq_min]
    norm_num [unitConfig, vLinearRaw])

/-- C7: an input whose magnitude equals maxLinearSpeed exactly is not
clamped — the recomposed (xVel, yVel) equals the input (vx, vy) — while an
input whose magnitude strictly exceeds it gets magnitude exactly
maxLinearSpeed. -/
theorem saturation_boundary (c : Config) (vx vy : ℝ) :
    (0 < c.maxLinearVelocity →
      Real.sqrt (vx ^ 2 + vy ^ 2) = c.maxLinearVelocity →
        xVelOf c vx vy = vx ∧ yVelOf c vx vy = vy) ∧
      (Real.sqrt (vx ^ 2 + vy ^ 2) > c.maxLinearVelocity →
        vLinearClamped c vx vy = c.maxLinearVelocity) := by
  constructor
  · intro hmax heq
    have hraw : vLinearRaw vx vy = c.maxLinearVelocity := heq
    have hne : ¬ vLinearRaw vx vy > c.maxLinearVelocity := by
      rw [hraw]; exact lt_irrefl _
    have hclamp : vLinearClamped c vx vy = c.maxLinearVelocity := by
      simp only [vLinearClamped, if_neg hne]; exact hraw
    have hsne : Real.sqrt (vx ^ 2 + vy ^ 2) ≠ 0 := by
      rw [heq]; exact hmax.ne'
    obtain ⟨hc, hs⟩ := recompose_identity vx vy hsne
    constructor
    · simp only [xVelOf, hclamp, ← heq]; exact hc
    · simp only [yVelOf, hclamp, ← heq]; exact hs
  · intro hgt
    have hgt' : vLinearRaw vx vy > c.maxLinearVelocity := hgt
    simp only [vLinearClamped, if_pos hgt']

/-- Witness for C7: at the unit configuration, input (1, 0) sits exactly on
the boundary and passes through, input (3, 4) is clamped to magnitude 1. -/
theorem saturation_boundary_witness :
    (xVelOf unitConfig 1 0 = 1 ∧ yVelOf unitConfig 1 0 = 0) ∧
      vLinearClamped unitConfig 3 4 = unitConfig.maxLinearVelocity :=
  ⟨(saturation_boundary unitConfig 1 0).1 (by norm_num [unitConfig])
      (by norm_num [unitConfig]),
    (saturation_boundary unitConfig 3 4).2 (by
      rw [show (3 : ℝ) ^ 2 + 4 ^ 2 = 5 ^ 2 by norm_num,
        Real.sqrt_sq (by norm_num : (0 : ℝ) ≤ 5)]
      norm_num [unitConfig])⟩

/-- C10: for every input and every valid geometry, each wheel speed is
uniformly bounded by gearboxRatio/(2·wheelRadius) ·
(√2·maxLinearSpeed + (α+β)·maxAngularSpeed). -/
theorem wheel_speed_uniform_bound (c : Config) (vx vy wz : ℝ)
    (hv : c.Valid) (k : ℕ) :
    |(convert c vx vy wz).getD k 0| ≤
      c.gb_ratio / (2 * c.radius) *
        (Real.sqrt 2 * c.maxLinearVelocity +
          (c.alpha + c.beta) * c.maxAngularVelocity) := by
  obtain ⟨ha, hbt, hr, hlin, hang, hgb⟩ := hv
  have hab : 0 ≤ c.alpha + c.beta := by linarith
  have hXY : |xVelOf c vx vy| + |yVelOf c vx vy| ≤
      Real.sqrt 2 * c.maxLinearVelocity :=
    abs_xVel_add_abs_yVel_le c vx vy hlin
  have hZ : |yawClamped c wz| ≤ c.maxAngularVelocity :=
    abs_yawClamped_le c wz hang
  simp only [convert, inverseKinematics_eq]
  rcases k with _ | _ | _ | _ | n
  · simp only [List.getD_cons_zero]
    rw [abs_neg, show xVelOf c vx vy - yVelOf c vx vy -
        (c.alpha + c.beta) * yawClamped c wz =
        xVelOf c vx vy + (-1) * yVelOf c vx vy +
          (-1) * ((c.alpha + c.beta) * yawClamped c wz) from by ring]
    exact entry_bound c _ _ _ _ _ hr hgb hab hXY hZ (Or.inr rfl) (Or.inr rfl)
  · simp only [List.getD_cons_succ, List.getD_cons_zero]
    rw [show xVelOf c vx vy + yVelOf c vx vy +
        (c.alpha + c.beta) * yawClamped c wz =
        xVelOf c vx vy + 1 * yVelOf c vx vy +
          1 * ((c.alpha + c.beta) * yawClamped c wz) from by ring]
    exact entry_bound c _ _ _ _ _ hr hgb hab hXY hZ (Or.inl rfl) (Or.inl rfl)
  · simp only [List.getD_cons_succ, List.getD_cons_zero]
    rw [abs_neg, show xVelOf c vx vy + yVelOf c vx vy -
        (c.alpha + c.beta) * yawClamped c wz =
        xVelOf c vx vy + 1 * yVelOf c vx vy +
          (-1) * ((c.alpha + c.beta) * yawClamped c wz) from by ring]
    exact entry_bound c _ _ _ _ _ hr hgb hab hXY hZ (Or.inl rfl) (Or.inr rfl)
  · simp only [List.getD_cons_succ, List.getD_cons_zero]
    rw [show xVelOf c vx vy - yVelOf c vx vy +
        (c.alpha + c.beta) * yawClamped c wz =
        xVelOf c vx vy + (-1) * yVelOf c vx vy +
          1 * ((c.alpha + c.beta) * yawClamped c wz) from by ring]
    exact entry_bound c _ _ _ _ _ hr hgb hab hXY hZ (Or.inr rfl) (Or.inl rfl)
  · simp only [List.getD_cons_succ, List.getD_nil, abs_zero]
    have hs2 : (0 : ℝ) ≤ Real.sqrt 2 := Real.sqrt_nonneg 2
    apply mul_nonneg
    · exact div_nonneg hgb.le (by linarith)
    · exact add_nonneg (mul_nonneg hs2 hlin.le) (mul_nonneg hab hang.le)

/-- Witness for C10 at the unit configuration with input (10, -3, 7). -/
theorem wheel_speed_uniform_bound_witness :
    |(convert unitConfig 10 (-3) 7).getD 0 0| ≤
      unitConfig.gb_ratio / (2 * unitConfig.radius) *
        (Real.sqrt 2 * unitConfig.maxLinearVelocity +
          (unitConfig.alpha + unitConfig.beta) *
            unitConfig.maxAngularVelocity) :=
  wheel_speed_uniform_bound unitConfig 10 (-3) 7
    (by norm_num [Config.Valid, unitConfig]) 0

/-- Witness for C9 at the default configuration. -/
theorem zero_input_zero_output_witness :
    convert mecanumDefault 0 0 0 = [0, 0, 0, 0] :=
  zero_input_zero_output mecanumDefault (by
    refine ⟨?_, ?_, ?_, ?_, ?_, ?_⟩ <;> simp [mecanumDefault, Config.Valid] <;>
      positivity)

end WmMecanum
